import Mathlib

/-!
Verification of the netcode-demo prediction/reconciliation subsystem.

Shallow embedding of the C++ sources:
  * `src/include/netcode/common/input.hpp`   — `InputCommand`
  * `src/include/netcode/common/packet.hpp`  — `Packet` (wire codec, validity)
  * `src/src/common/prediction.cpp`          — `predictPosition`, `PredictionSystem`
  * `src/src/common/interpolation.cpp`       — `interpolatePosition`
  * `src/src/server/server.cpp`              — authoritative per-client input processing

`float` values are modelled as exact rationals (`ℚ`); where NaN/Infinity
behaviour matters (packet validation, extrapolation totality) floats are
modelled by an extended type `F` with IEEE-754 special-value semantics.
Machine `uint32_t` sequence numbers are `Nat`s (no arithmetic in the code
ever overflows them: they are only compared and copied).
-/

namespace Netcode

/-- InputCommand from `input.hpp`: sequence number, normalized intent, frame dt. -/
structure InputCommand where
  sequence : Nat
  vx : ℚ
  vy : ℚ
  dt : ℚ
  deriving Repr, DecidableEq

/-- Packet from `packet.hpp` (host-side view): sequence, position, velocity. -/
structure Packet where
  seq : Nat
  x : ℚ
  y : ℚ
  vx : ℚ
  vy : ℚ
  deriving Repr, DecidableEq

/-- MOVE_SPEED constant from `prediction.cpp` (and `server.cpp`): 120 units/s. -/
def MOVE_SPEED : ℚ := 120

/-- ERROR_CORRECTION_RATE from `prediction.hpp`: 5.0 per second. -/
def ERROR_CORRECTION_RATE : ℚ := 5

/-- MAX_UNACKED_INPUTS from `prediction.hpp`: buffer capacity 120. -/
def MAX_UNACKED_INPUTS : Nat := 120

/-- State of `PredictionSystem` (`prediction.hpp`).  The deque of
unacknowledged inputs is a list whose head is the deque front (oldest). -/
structure PredictionSystem where
  unacknowledgedInputs : List InputCommand
  predictedX : ℚ
  predictedY : ℚ
  predictedVx : ℚ
  predictedVy : ℚ
  serverX : ℚ
  serverY : ℚ
  serverVx : ℚ
  serverVy : ℚ
  lastAckedSequence : Nat
  errorX : ℚ
  errorY : ℚ
  deriving Repr, DecidableEq

/-- The `PredictionSystem(initialX, initialY)` constructor. -/
def PredictionSystem.init (initialX initialY : ℚ) : PredictionSystem where
  unacknowledgedInputs := []
  predictedX := initialX
  predictedY := initialY
  predictedVx := 0
  predictedVy := 0
  serverX := initialX
  serverY := initialY
  serverVx := 0
  serverVy := 0
  lastAckedSequence := 0
  errorX := 0
  errorY := 0

/-- The function `PredictionSystem::applyInputToState` (`prediction.cpp` lines 150–160):
velocity is recomputed from the input intent alone, position advances by the
new velocity times the input duration.  Returns `(x, y, vx, vy)`. -/
def applyInputToState (x y _vx _vy : ℚ) (input : InputCommand) : ℚ × ℚ × ℚ × ℚ :=
  let vx := input.vx * MOVE_SPEED
  let vy := input.vy * MOVE_SPEED
  (x + vx * input.dt, y + vy * input.dt, vx, vy)

/-- The function `PredictionSystem::applyInput` (`prediction.cpp` lines 49–60): apply the
input to the predicted state, append it to the buffer, and evict the oldest
entry if the buffer exceeds `MAX_UNACKED_INPUTS`. -/
def PredictionSystem.applyInput (sys : PredictionSystem) (input : InputCommand) :
    PredictionSystem :=
  let s := applyInputToState sys.predictedX sys.predictedY
                             sys.predictedVx sys.predictedVy input
  let buf := sys.unacknowledgedInputs ++ [input]
  let buf := if MAX_UNACKED_INPUTS < buf.length then buf.tail else buf
  { sys with
      predictedX := s.1, predictedY := s.2.1
      predictedVx := s.2.2.1, predictedVy := s.2.2.2
      unacknowledgedInputs := buf }

/-- Replay loop of `reconcileWithServer`: fold `applyInputToState` over the
remaining buffered inputs, starting from the server state. -/
def replayInputs (start : ℚ × ℚ × ℚ × ℚ) (inputs : List InputCommand) :
    ℚ × ℚ × ℚ × ℚ :=
  inputs.foldl (fun s i => applyInputToState s.1 s.2.1 s.2.2.1 s.2.2.2 i) start

/-- The function `PredictionSystem::reconcileWithServer` (`prediction.cpp` lines 67–100):
record the server state and sequence, pop buffered inputs from the front
while their sequence is ≤ the packet's sequence, replay the remainder from
the server state, stash the residual error, and snap the prediction to the
reconciled state. -/
def PredictionSystem.reconcileWithServer (sys : PredictionSystem)
    (serverPacket : Packet) : PredictionSystem :=
  let lastAcked := serverPacket.seq
  let buf := sys.unacknowledgedInputs.dropWhile
      (fun i => decide (i.sequence ≤ lastAcked))
  let r := replayInputs (serverPacket.x, serverPacket.y,
                         serverPacket.vx, serverPacket.vy) buf
  { unacknowledgedInputs := buf
    predictedX := r.1, predictedY := r.2.1
    predictedVx := r.2.2.1, predictedVy := r.2.2.2
    serverX := serverPacket.x, serverY := serverPacket.y
    serverVx := serverPacket.vx, serverVy := serverPacket.vy
    lastAckedSequence := lastAcked
    errorX := r.1 - sys.predictedX
    errorY := r.2.1 - sys.predictedY }

/-- The function `PredictionSystem::update` (`prediction.cpp` lines 106–126): smooth error
correction.  The C++ epsilon constant `0.01f` is the rational 1/100 in this
exact model. -/
def PredictionSystem.update (sys : PredictionSystem) (dt : ℚ) : PredictionSystem :=
  if 1/100 < |sys.errorX| ∨ 1/100 < |sys.errorY| then
    let correctionX := sys.errorX * ERROR_CORRECTION_RATE * dt
    let correctionY := sys.errorY * ERROR_CORRECTION_RATE * dt
    let correctionX := if |sys.errorX| < |correctionX| then sys.errorX else correctionX
    let correctionY := if |sys.errorY| < |correctionY| then sys.errorY else correctionY
    { sys with
        predictedX := sys.predictedX + correctionX
        predictedY := sys.predictedY + correctionY
        errorX := sys.errorX - correctionX
        errorY := sys.errorY - correctionY }
  else sys

/-- The function `PredictionSystem::getPredictedPosition`. -/
def PredictionSystem.getPredictedPosition (sys : PredictionSystem) : ℚ × ℚ :=
  (sys.predictedX, sys.predictedY)

/-- The function `PredictionSystem::getPredictedVelocity`. -/
def PredictionSystem.getPredictedVelocity (sys : PredictionSystem) : ℚ × ℚ :=
  (sys.predictedVx, sys.predictedVy)

/-- The function `PredictionSystem::getUnackedInputCount`. -/
def PredictionSystem.getUnackedInputCount (sys : PredictionSystem) : Nat :=
  sys.unacknowledgedInputs.length

/-- The function `PredictionSystem::shouldThrottle` (`prediction.hpp` line 134): true when
the buffer is more than half full (`size > MAX_UNACKED_INPUTS / 2`). -/
def PredictionSystem.shouldThrottle (sys : PredictionSystem) : Bool :=
  decide (MAX_UNACKED_INPUTS / 2 < sys.unacknowledgedInputs.length)

/-- The function `interpolatePosition` (`interpolation.cpp` lines 29–33). -/
def interpolatePosition (prev next : Packet) (t : ℚ) : ℚ × ℚ :=
  (prev.x + (next.x - prev.x) * t, prev.y + (next.y - prev.y) * t)

/-! ### Extended floats: finite rationals plus IEEE-754 special values

Used where the C++ code's behaviour on NaN/Infinity is part of the claim
(`Packet::isValid`, `predictPosition`).  `inf true` is +∞, `inf false` −∞. -/

/-- A float value: finite (exact rational), NaN, or a signed infinity. -/
inductive F where
  | val : ℚ → F
  | nan : F
  | inf : Bool → F
  deriving Repr, DecidableEq

/-- The function `std::isfinite`. -/
def F.isFinite : F → Bool
  | .val _ => true
  | _ => false

/-- The comparison `std::abs(f) > c` under IEEE semantics: false when `f` is
NaN (all ordered comparisons with NaN are false), true when `f` is ±∞. -/
def F.absGt (f : F) (c : ℚ) : Bool :=
  match f with
  | .val q => decide (c < |q|)
  | .nan => false
  | .inf _ => true

/-- IEEE addition on extended floats (exact on finite values). -/
def F.add : F → F → F
  | .nan, _ => .nan
  | _, .nan => .nan
  | .val a, .val b => .val (a + b)
  | .inf s, .val _ => .inf s
  | .val _, .inf s => .inf s
  | .inf s, .inf t => if s = t then .inf s else .nan

/-- IEEE multiplication on extended floats (exact on finite values);
`∞ × 0 = NaN`, otherwise the sign rule applies. -/
def F.mul : F → F → F
  | .nan, _ => .nan
  | _, .nan => .nan
  | .val a, .val b => .val (a * b)
  | .inf s, .val b => if b = 0 then .nan else .inf (s = decide (0 < b))
  | .val a, .inf s => if a = 0 then .nan else .inf (s = decide (0 < a))
  | .inf s, .inf t => .inf (s = t)

/-- A packet whose float fields may hold special values, as received off the
wire before validation. -/
structure FPacket where
  seq : Nat
  x : F
  y : F
  vx : F
  vy : F
  deriving Repr, DecidableEq

/-- The function `Packet::isValid` (`packet.hpp` lines 85–110): reject non-finite floats,
then positions beyond ±10000, then velocities beyond ±1000, then a zero
sequence number; otherwise accept. -/
def FPacket.isValid (p : FPacket) : Bool :=
  if !(p.x.isFinite && p.y.isFinite && p.vx.isFinite && p.vy.isFinite) then
    false
  else if p.x.absGt 10000 || p.y.absGt 10000 then
    false
  else if p.vx.absGt 1000 || p.vy.absGt 1000 then
    false
  else if p.seq = 0 then
    false
  else
    true

/-- The function `predictPosition` (`prediction.cpp` lines 24–29) over extended floats:
`(pkt.x + pkt.vx * dt, pkt.y + pkt.vy * dt)`, total, no validation. -/
def predictPosition (pkt : FPacket) (dt : F) : F × F :=
  (pkt.x.add (pkt.vx.mul dt), pkt.y.add (pkt.vy.mul dt))

/-! ### Wire codec (`packet.hpp` lines 58–79)

The 20-byte buffer is a list of byte values.  `serialize` writes the
sequence via `htonl` (big-endian) at offset 0, then `memcpy`s the four
floats' 32-bit object representations at offsets 4, 8, 12, 16 in host
byte order (little-endian on the demo's platforms).  A float field is
modelled by its 32-bit pattern, which `memcpy` preserves exactly. -/

/-- The four big-endian bytes of a 32-bit value (`htonl` + `memcpy`). -/
def bytesBE (n : Nat) : List Nat :=
  [n / 16777216 % 256, n / 65536 % 256, n / 256 % 256, n % 256]

/-- The four little-endian bytes of a 32-bit value (host-order `memcpy`). -/
def bytesLE (n : Nat) : List Nat :=
  [n % 256, n / 256 % 256, n / 65536 % 256, n / 16777216 % 256]

/-- Read back a big-endian 32-bit value at offset `off` (`memcpy` + `ntohl`). -/
def readBE (buf : List Nat) (off : Nat) : Nat :=
  16777216 * buf.getD off 0 + 65536 * buf.getD (off + 1) 0 +
    256 * buf.getD (off + 2) 0 + buf.getD (off + 3) 0

/-- Read back a little-endian 32-bit value at offset `off` (host-order `memcpy`). -/
def readLE (buf : List Nat) (off : Nat) : Nat :=
  buf.getD off 0 + 256 * buf.getD (off + 1) 0 +
    65536 * buf.getD (off + 2) 0 + 16777216 * buf.getD (off + 3) 0

/-- A packet as laid out on the wire: the sequence number and the 32-bit
patterns of the four floats. -/
structure WirePacket where
  seq : Nat
  x : Nat
  y : Nat
  vx : Nat
  vy : Nat
  deriving Repr, DecidableEq

/-- The function `Packet::serialize` (`packet.hpp` lines 58–65): sequence big-endian at
offset 0, floats at offsets 4, 8, 12, 16. -/
def WirePacket.serialize (p : WirePacket) : List Nat :=
  bytesBE p.seq ++ bytesLE p.x ++ bytesLE p.y ++ bytesLE p.vx ++ bytesLE p.vy

/-- The function `Packet::deserialize` (`packet.hpp` lines 71–79): the inverse reads at
the same offsets. -/
def WirePacket.deserialize (buf : List Nat) : WirePacket where
  seq := readBE buf 0
  x := readLE buf 4
  y := readLE buf 8
  vx := readLE buf 12
  vy := readLE buf 16

/-! ### Authoritative server simulation (`server.cpp` lines 269–301) -/

/-- The function `std::clamp(v, lo, hi)`. -/
def clampQ (v lo hi : ℚ) : ℚ :=
  if v < lo then lo else if hi < v then hi else v

/-- BOUNDS_MIN from `server.cpp` line 214. -/
def BOUNDS_MIN : ℚ := 30

/-- BOUNDS_MAX from `server.cpp` line 215. -/
def BOUNDS_MAX : ℚ := 310

/-- Per-client authoritative state (`server.cpp` struct, sans timestamp:
elapsed real time is passed to `processInput` explicitly). -/
structure ClientState where
  x : ℚ
  y : ℚ
  vx : ℚ
  vy : ℚ
  lastSeq : Nat
  deriving Repr, DecidableEq

/-- The per-packet body of the server main loop (`server.cpp` lines 269–301)
for a packet that passed the size and `seq != 0` checks.  `rawDt` is the
elapsed real time since the client's last update.  Returns the updated
client state and the response packet (which echoes the input's sequence and
the current authoritative position/velocity). -/
def processInput (client : ClientState) (pkt : Packet) (rawDt : ℚ) :
    ClientState × Packet :=
  let client' :=
    if client.lastSeq < pkt.seq then
      let dt := clampQ rawDt 0 (1/10)
      let inputX := clampQ pkt.x (-1) 1
      let inputY := clampQ pkt.y (-1) 1
      let vx := inputX * MOVE_SPEED
      let vy := inputY * MOVE_SPEED
      let x := clampQ (client.x + vx * dt) BOUNDS_MIN BOUNDS_MAX
      let y := clampQ (client.y + vy * dt) BOUNDS_MIN BOUNDS_MAX
      { x := x, y := y, vx := vx, vy := vy, lastSeq := pkt.seq }
    else
      client
  (client', ⟨pkt.seq, client'.x, client'.y, client'.vx, client'.vy⟩)

/-! ### Operation sequences over the engine (for the buffer-bound invariant) -/

/-- One externally visible mutating engine call. -/
inductive EngineOp where
  | applyInput : InputCommand → EngineOp
  | reconcile : Packet → EngineOp
  | update : ℚ → EngineOp
  deriving Repr

/-- Run one engine call. -/
def PredictionSystem.step (sys : PredictionSystem) : EngineOp → PredictionSystem
  | .applyInput i => sys.applyInput i
  | .reconcile p => sys.reconcileWithServer p
  | .update dt => sys.update dt

/-- Run a sequence of engine calls. -/
def PredictionSystem.runOps (sys : PredictionSystem) (ops : List EngineOp) :
    PredictionSystem :=
  ops.foldl PredictionSystem.step sys

/-! ### Helper lemmas -/

/-- Adding to NaN yields NaN, whatever the other operand. -/
lemma F.add_nan_right (a : F) : a.add .nan = .nan := by
  cases a <;> rfl

/-- Multiplying by NaN yields NaN, whatever the other operand. -/
lemma F.mul_nan_right (a : F) : a.mul .nan = .nan := by
  cases a <;> rfl

/-- Popping from the front with an older-or-equal threshold after popping
with a newer one removes nothing further. -/
lemma dropWhile_le_dropWhile_le (l : List InputCommand) (s s' : Nat)
    (h : s' ≤ s) :
    (l.dropWhile (fun i => decide (i.sequence ≤ s))).dropWhile
        (fun i => decide (i.sequence ≤ s')) =
      l.dropWhile (fun i => decide (i.sequence ≤ s)) := by
  induction l with
  | nil => rfl
  | cons a t ih =>
    by_cases ha : a.sequence ≤ s
    · simpa [List.dropWhile_cons, ha] using ih
    · have ha' : ¬a.sequence ≤ s' := fun hle => ha (hle.trans h)
      simp [List.dropWhile_cons, ha, ha']

/-- On a buffer with strictly increasing sequences (the shape `applyInput`
produces under monotone sequence assignment), the front-popping loop of
`reconcileWithServer` removes exactly the inputs with sequence ≤ `s`. -/
lemma dropWhile_eq_filter_of_pairwise (l : List InputCommand) (s : Nat)
    (h : l.Pairwise (fun a b => a.sequence < b.sequence)) :
    l.dropWhile (fun i => decide (i.sequence ≤ s)) =
      l.filter (fun i => decide (s < i.sequence)) := by
  induction l with
  | nil => rfl
  | cons a t ih =>
    rcases List.pairwise_cons.mp h with ⟨hall, ht⟩
    by_cases ha : a.sequence ≤ s
    · simp [List.dropWhile_cons, List.filter_cons, ha, Nat.not_lt.mpr ha, ih ht]
    · have hs : s < a.sequence := Nat.lt_of_not_le ha
      have hrest : ∀ b ∈ t, decide (s < b.sequence) = true := fun b hb => by
        simp [lt_trans hs (hall b hb)]
      simp [List.dropWhile_cons, ha, List.filter_cons, hs,
            List.filter_eq_self.mpr hrest]

/-- The applyInput call never grows the buffer past the capacity. -/
lemma applyInput_length_le (sys : PredictionSystem) (i : InputCommand)
    (h : sys.unacknowledgedInputs.length ≤ MAX_UNACKED_INPUTS) :
    (sys.applyInput i).unacknowledgedInputs.length ≤ MAX_UNACKED_INPUTS := by
  simp only [PredictionSystem.applyInput]
  by_cases hlen :
      MAX_UNACKED_INPUTS < (sys.unacknowledgedInputs ++ [i]).length
  · simp only [hlen, if_true]
    simp only [List.length_tail, List.length_append, List.length_singleton]
    omega
  · simp only [hlen, if_false]
    simp only [List.length_append, List.length_singleton] at *
    omega

/-- The reconcile call never grows the buffer. -/
lemma reconcile_length_le (sys : PredictionSystem) (p : Packet) :
    (sys.reconcileWithServer p).unacknowledgedInputs.length ≤
      sys.unacknowledgedInputs.length := by
  simp only [PredictionSystem.reconcileWithServer]
  exact (List.dropWhile_sublist _).length_le

/-- The update call leaves the input buffer untouched. -/
lemma update_unacknowledgedInputs (sys : PredictionSystem) (dt : ℚ) :
    (sys.update dt).unacknowledgedInputs = sys.unacknowledgedInputs := by
  simp only [PredictionSystem.update]
  split <;> rfl

/-- Buffer-capacity invariant, preserved along any run of engine calls. -/
lemma runOps_length_le (sys : PredictionSystem) (ops : List EngineOp)
    (h : sys.unacknowledgedInputs.length ≤ MAX_UNACKED_INPUTS) :
    (sys.runOps ops).unacknowledgedInputs.length ≤ MAX_UNACKED_INPUTS := by
  induction ops generalizing sys with
  | nil => exact h
  | cons op t ih =>
    refine ih _ ?_
    cases op with
    | applyInput i => exact applyInput_length_le _ _ h
    | reconcile p => exact (reconcile_length_le _ _).trans h
    | update dt =>
        show (sys.update dt).unacknowledgedInputs.length ≤ MAX_UNACKED_INPUTS
        rw [update_unacknowledgedInputs]; exact h

/-- Clamped correction term of `update`, in closed form: for `dt ≥ 0` the
applied correction is `min (rate·dt) 1` times the residual error. -/
lemma correction_clamp_eq (e r dt : ℚ) (hr : 0 < r) (hdt : 0 ≤ dt) :
    (if |e| < |e * r * dt| then e else e * r * dt) = min (r * dt) 1 * e := by
  have habs : |e * r * dt| = |e| * (r * dt) := by
    rw [mul_assoc, abs_mul, abs_of_nonneg (mul_nonneg hr.le hdt)]
  by_cases hlt : |e| < |e * r * dt|
  · rw [if_pos hlt]
    rw [habs] at hlt
    have he : 0 < |e| := by
      by_contra hc
      push_neg at hc
      have : |e| = 0 := le_antisymm hc (abs_nonneg e)
      rw [this] at hlt
      simp at hlt
    have h1 : 1 < r * dt := by
      by_contra hc
      push_neg at hc
      nlinarith
    rw [min_eq_right h1.le, one_mul]
  · rw [if_neg hlt]
    rw [habs] at hlt
    push_neg at hlt
    by_cases he : e = 0
    · simp [he]
    · have he' : 0 < |e| := abs_pos.mpr he
      have h1 : r * dt ≤ 1 := by nlinarith
      rw [min_eq_left h1]
      ring

/-- Lower bound of `std::clamp`, provided the interval is nonempty. -/
lemma clampQ_le_left (v lo hi : ℚ) (h : lo ≤ hi) : lo ≤ clampQ v lo hi := by
  unfold clampQ
  split_ifs with h1 h2
  · exact le_refl lo
  · exact h
  · exact le_of_not_lt h1

/-- Upper bound of `std::clamp`, provided the interval is nonempty. -/
lemma clampQ_le_right (v lo hi : ℚ) (h : lo ≤ hi) : clampQ v lo hi ≤ hi := by
  unfold clampQ
  split_ifs with h1 h2
  · exact h
  · exact le_refl hi
  · exact le_of_not_lt h2

/-! ### Claim theorems -/

/-- C1 (counterexample): reconciling with a packet of sequence 2 and then
with an older packet of sequence 1 overwrites `lastAckedSequence` with 1 —
`reconcileWithServer` assigns the packet's sequence unconditionally
(`prediction.cpp` line 69), so the stored last-acknowledged sequence does
not remain at the high-water mark 2. -/
theorem C1_lastAcked_regresses_counterexample :
    (((PredictionSystem.init 0 0).reconcileWithServer
          ⟨2, 0, 0, 0, 0⟩).reconcileWithServer
        ⟨1, 0, 0, 0, 0⟩).lastAckedSequence = 1 ∧
    ¬((((PredictionSystem.init 0 0).reconcileWithServer
          ⟨2, 0, 0, 0, 0⟩).reconcileWithServer
        ⟨1, 0, 0, 0, 0⟩).lastAckedSequence = 2) := by
  have h1 : (((PredictionSystem.init 0 0).reconcileWithServer
        ⟨2, 0, 0, 0, 0⟩).reconcileWithServer
      ⟨1, 0, 0, 0, 0⟩).lastAckedSequence = 1 := rfl
  exact ⟨h1, by rw [h1]; omega⟩

/-- C1 (amended): after `reconcileWithServer` is called with a packet of
sequence `s` and then with a packet of sequence `s' ≤ s`, the second
reconciliation leaves the pending-input buffer — hence its count — exactly
unchanged (it resurrects no evicted input, and with `s' = s` the buffer is
identical after the second call); the stored `lastAckedSequence` field,
however, is overwritten to `s'` rather than remaining at the high-water
mark `s`. -/
theorem C1_out_of_order_reconcile_buffer_stable (sys : PredictionSystem)
    (p p' : Packet) (h : p'.seq ≤ p.seq) :
    ((sys.reconcileWithServer p).reconcileWithServer p').unacknowledgedInputs =
        (sys.reconcileWithServer p).unacknowledgedInputs ∧
    ((sys.reconcileWithServer p).reconcileWithServer p').getUnackedInputCount =
        (sys.reconcileWithServer p).getUnackedInputCount ∧
    ((sys.reconcileWithServer p).reconcileWithServer p').lastAckedSequence =
        p'.seq := by
  have h1 : (sys.reconcileWithServer p).unacknowledgedInputs =
      sys.unacknowledgedInputs.dropWhile (fun i => decide (i.sequence ≤ p.seq)) :=
    rfl
  have h2 : ((sys.reconcileWithServer p).reconcileWithServer p').unacknowledgedInputs =
      ((sys.reconcileWithServer p).unacknowledgedInputs).dropWhile
        (fun i => decide (i.sequence ≤ p'.seq)) := rfl
  have hb : ((sys.reconcileWithServer p).reconcileWithServer p').unacknowledgedInputs =
      (sys.reconcileWithServer p).unacknowledgedInputs := by
    rw [h2, h1]
    exact dropWhile_le_dropWhile_le _ _ _ h
  refine ⟨hb, ?_, rfl⟩
  unfold PredictionSystem.getUnackedInputCount
  rw [hb]

/-- Witness for C1 (amended): sequences 2 then 1, one input of sequence 3
still pending. -/
theorem C1_out_of_order_reconcile_buffer_stable_witness :
    (1 : Nat) ≤ 2 ∧
    (((((PredictionSystem.init 0 0).applyInput
            ⟨3, 1, 0, 1⟩).reconcileWithServer
          ⟨2, 0, 0, 0, 0⟩).reconcileWithServer
        ⟨1, 0, 0, 0, 0⟩).unacknowledgedInputs =
      ((((PredictionSystem.init 0 0).applyInput
            ⟨3, 1, 0, 1⟩).reconcileWithServer
          ⟨2, 0, 0, 0, 0⟩)).unacknowledgedInputs) :=
  ⟨by omega,
   (C1_out_of_order_reconcile_buffer_stable
      ((PredictionSystem.init 0 0).applyInput ⟨3, 1, 0, 1⟩)
      ⟨2, 0, 0, 0, 0⟩ ⟨1, 0, 0, 0, 0⟩ (by decide)).1⟩

/-- C2: on the sequence-ordered buffers the engine builds,
`reconcileWithServer` evicts exactly the buffered inputs with sequence ≤
the packet's sequence and sets the predicted position to the replay of the
remaining inputs from the server state; concretely, one input
`{seq=1,vx=1,dt=1}` from (0,0) reconciled against `{seq=1,x=0,y=0}` yields
position (0,0) with 0 pending, and inputs seq 1 and 2 reconciled against
`{seq=1,x=120}` yield position (240,0) with 1 pending. -/
theorem C2_reconcile_evicts_and_replays :
    (∀ (sys : PredictionSystem) (p : Packet),
        sys.unacknowledgedInputs.Pairwise (fun a b => a.sequence < b.sequence) →
        (sys.reconcileWithServer p).unacknowledgedInputs =
            sys.unacknowledgedInputs.filter
              (fun i => decide (p.seq < i.sequence)) ∧
        (sys.reconcileWithServer p).getPredictedPosition =
            ((replayInputs (p.x, p.y, p.vx, p.vy)
                (sys.unacknowledgedInputs.filter
                  (fun i => decide (p.seq < i.sequence)))).1,
             (replayInputs (p.x, p.y, p.vx, p.vy)
                (sys.unacknowledgedInputs.filter
                  (fun i => decide (p.seq < i.sequence)))).2.1)) ∧
    ((((PredictionSystem.init 0 0).applyInput ⟨1, 1, 0, 1⟩).reconcileWithServer
        ⟨1, 0, 0, 0, 0⟩).getPredictedPosition = (0, 0) ∧
     (((PredictionSystem.init 0 0).applyInput ⟨1, 1, 0, 1⟩).reconcileWithServer
        ⟨1, 0, 0, 0, 0⟩).getUnackedInputCount = 0) ∧
    (((((PredictionSystem.init 0 0).applyInput ⟨1, 1, 0, 1⟩).applyInput
          ⟨2, 1, 0, 1⟩).reconcileWithServer
        ⟨1, 120, 0, 0, 0⟩).getPredictedPosition = (240, 0) ∧
     ((((PredictionSystem.init 0 0).applyInput ⟨1, 1, 0, 1⟩).applyInput
          ⟨2, 1, 0, 1⟩).reconcileWithServer
        ⟨1, 120, 0, 0, 0⟩).getUnackedInputCount = 1) := by
  refine ⟨fun sys p hsort => ?_, ⟨?_, ?_⟩, ⟨?_, ?_⟩⟩
  · have hd := dropWhile_eq_filter_of_pairwise sys.unacknowledgedInputs p.seq hsort
    constructor
    · show sys.unacknowledgedInputs.dropWhile
          (fun i => decide (i.sequence ≤ p.seq)) = _
      exact hd
    · show ((replayInputs (p.x, p.y, p.vx, p.vy)
            (sys.unacknowledgedInputs.dropWhile
              (fun i => decide (i.sequence ≤ p.seq)))).1,
           (replayInputs (p.x, p.y, p.vx, p.vy)
            (sys.unacknowledgedInputs.dropWhile
              (fun i => decide (i.sequence ≤ p.seq)))).2.1) = _
      rw [hd]
  · simp [PredictionSystem.init, PredictionSystem.applyInput,
          PredictionSystem.reconcileWithServer, applyInputToState, replayInputs,
          PredictionSystem.getPredictedPosition, MOVE_SPEED, MAX_UNACKED_INPUTS]
  · simp [PredictionSystem.init, PredictionSystem.applyInput,
          PredictionSystem.reconcileWithServer, applyInputToState, replayInputs,
          PredictionSystem.getUnackedInputCount, MOVE_SPEED, MAX_UNACKED_INPUTS]
  · simp [PredictionSystem.init, PredictionSystem.applyInput,
          PredictionSystem.reconcileWithServer, applyInputToState, replayInputs,
          PredictionSystem.getPredictedPosition, MOVE_SPEED, MAX_UNACKED_INPUTS]
    norm_num
  · simp [PredictionSystem.init, PredictionSystem.applyInput,
          PredictionSystem.reconcileWithServer, applyInputToState, replayInputs,
          PredictionSystem.getUnackedInputCount, MOVE_SPEED, MAX_UNACKED_INPUTS]

/-- Witness for C2: the eviction equality instantiated on the engine holding
the single input of sequence 1, reconciled against sequence 1. -/
theorem C2_reconcile_evicts_and_replays_witness :
    (((PredictionSystem.init 0 0).applyInput
        ⟨1, 1, 0, 1⟩).unacknowledgedInputs.Pairwise
      (fun a b => a.sequence < b.sequence)) ∧
    ((((PredictionSystem.init 0 0).applyInput ⟨1, 1, 0, 1⟩).reconcileWithServer
        ⟨1, 0, 0, 0, 0⟩).unacknowledgedInputs =
      (((PredictionSystem.init 0 0).applyInput
          ⟨1, 1, 0, 1⟩)).unacknowledgedInputs.filter
        (fun i => decide ((1 : Nat) < i.sequence))) := by
  have hsort : (((PredictionSystem.init 0 0).applyInput
      ⟨1, 1, 0, 1⟩).unacknowledgedInputs.Pairwise
        (fun a b => a.sequence < b.sequence)) := by
    simp [PredictionSystem.init, PredictionSystem.applyInput, applyInputToState,
          MAX_UNACKED_INPUTS]
  exact ⟨hsort,
    (C2_reconcile_evicts_and_replays.1
      ((PredictionSystem.init 0 0).applyInput ⟨1, 1, 0, 1⟩)
      ⟨1, 0, 0, 0, 0⟩ hsort).1⟩

/-- C3: for `dt ≥ 0`, when some residual exceeds the 0.01 epsilon, `update`
moves each axis toward the reconciled value by `error × 5.0 × dt` clamped so
the applied correction never exceeds the remaining error on that axis — the
applied correction is `min (5·dt) 1 × error` — and decrements the residual
error by exactly the applied correction; when both residuals are within the
epsilon, `update` leaves the whole state unchanged. -/
theorem C3_update_smooth_error_correction (sys : PredictionSystem) (dt : ℚ)
    (hdt : 0 ≤ dt) :
    ((1/100 < |sys.errorX| ∨ 1/100 < |sys.errorY|) →
        (sys.update dt).predictedX =
            sys.predictedX + min (ERROR_CORRECTION_RATE * dt) 1 * sys.errorX ∧
        (sys.update dt).predictedY =
            sys.predictedY + min (ERROR_CORRECTION_RATE * dt) 1 * sys.errorY ∧
        (sys.update dt).errorX =
            sys.errorX - min (ERROR_CORRECTION_RATE * dt) 1 * sys.errorX ∧
        (sys.update dt).errorY =
            sys.errorY - min (ERROR_CORRECTION_RATE * dt) 1 * sys.errorY ∧
        |min (ERROR_CORRECTION_RATE * dt) 1 * sys.errorX| ≤ |sys.errorX| ∧
        |min (ERROR_CORRECTION_RATE * dt) 1 * sys.errorY| ≤ |sys.errorY|) ∧
    ((|sys.errorX| ≤ 1/100 ∧ |sys.errorY| ≤ 1/100) → sys.update dt = sys) := by
  have hrate : (0 : ℚ) < ERROR_CORRECTION_RATE := by norm_num [ERROR_CORRECTION_RATE]
  have hc : ∀ e : ℚ,
      (if |e| < |e * ERROR_CORRECTION_RATE * dt| then e
        else e * ERROR_CORRECTION_RATE * dt) =
      min (ERROR_CORRECTION_RATE * dt) 1 * e :=
    fun e => correction_clamp_eq e ERROR_CORRECTION_RATE dt hrate hdt
  have h0 : 0 ≤ min (ERROR_CORRECTION_RATE * dt) 1 :=
    le_min (mul_nonneg hrate.le hdt) zero_le_one
  have hbound : ∀ e : ℚ, |min (ERROR_CORRECTION_RATE * dt) 1 * e| ≤ |e| := by
    intro e
    rw [abs_mul, abs_of_nonneg h0]
    exact mul_le_of_le_one_left (abs_nonneg e) (min_le_right _ _)
  constructor
  · intro hbig
    have hupd : sys.update dt = { sys with
        predictedX :=
          sys.predictedX + min (ERROR_CORRECTION_RATE * dt) 1 * sys.errorX,
        predictedY :=
          sys.predictedY + min (ERROR_CORRECTION_RATE * dt) 1 * sys.errorY,
        errorX := sys.errorX - min (ERROR_CORRECTION_RATE * dt) 1 * sys.errorX,
        errorY :=
          sys.errorY - min (ERROR_CORRECTION_RATE * dt) 1 * sys.errorY } := by
      simp only [PredictionSystem.update, if_pos hbig]
      rw [hc sys.errorX, hc sys.errorY]
    rw [hupd]
    exact ⟨rfl, rfl, rfl, rfl, hbound _, hbound _⟩
  · rintro ⟨hsx, hsy⟩
    have hsmall : ¬(1/100 < |sys.errorX| ∨ 1/100 < |sys.errorY|) := by
      push_neg
      exact ⟨hsx, hsy⟩
    simp only [PredictionSystem.update, if_neg hsmall]

/-- Witness for C3: residual error (1, 0) corrected over a 0.1-second step. -/
theorem C3_update_smooth_error_correction_witness :
    (0 : ℚ) ≤ 1/10 ∧
    (1/100 < |({ PredictionSystem.init 0 0 with errorX := 1 } :
        PredictionSystem).errorX| ∨
      1/100 < |({ PredictionSystem.init 0 0 with errorX := 1 } :
        PredictionSystem).errorY|) ∧
    (({ PredictionSystem.init 0 0 with errorX := 1 } :
        PredictionSystem).update (1/10)).predictedX =
      ({ PredictionSystem.init 0 0 with errorX := 1 } :
        PredictionSystem).predictedX +
        min (ERROR_CORRECTION_RATE * (1/10)) 1 *
          ({ PredictionSystem.init 0 0 with errorX := 1 } :
            PredictionSystem).errorX := by
  have hdt : (0 : ℚ) ≤ 1/10 := by norm_num
  have hbig : (1/100 < |({ PredictionSystem.init 0 0 with errorX := 1 } :
      PredictionSystem).errorX| ∨
    1/100 < |({ PredictionSystem.init 0 0 with errorX := 1 } :
      PredictionSystem).errorY|) := by
    left
    norm_num [PredictionSystem.init]
  exact ⟨hdt, hbig,
    ((C3_update_smooth_error_correction
        { PredictionSystem.init 0 0 with errorX := 1 } (1/10) hdt).1 hbig).1⟩

/-- C4: along every sequence of engine calls from a fresh engine, the
pending-input count never exceeds the fixed capacity 120, with `applyInput`
evicting the oldest entry when the buffer is full; and `shouldThrottle` is
true exactly when the pending count exceeds half the capacity (60) — in
particular it is false whenever a reconciliation leaves at most 60 pending
inputs. -/
theorem C4_buffer_bound_and_throttle :
    (∀ (x0 y0 : ℚ) (ops : List EngineOp),
        ((PredictionSystem.init x0 y0).runOps ops).getUnackedInputCount ≤ 120) ∧
    (∀ (sys : PredictionSystem) (i : InputCommand),
        sys.unacknowledgedInputs.length = 120 →
        (sys.applyInput i).unacknowledgedInputs =
          sys.unacknowledgedInputs.tail ++ [i]) ∧
    (∀ sys : PredictionSystem,
        sys.shouldThrottle = true ↔ 60 < sys.getUnackedInputCount) ∧
    (∀ (sys : PredictionSystem) (p : Packet),
        (sys.reconcileWithServer p).getUnackedInputCount ≤ 60 →
        (sys.reconcileWithServer p).shouldThrottle = false) := by
  refine ⟨?_, ?_, ?_, ?_⟩
  · intro x0 y0 ops
    exact runOps_length_le _ _ (by simp [PredictionSystem.init])
  · intro sys i hfull
    simp only [PredictionSystem.applyInput]
    have hover : MAX_UNACKED_INPUTS < (sys.unacknowledgedInputs ++ [i]).length := by
      simp [List.length_append, hfull, MAX_UNACKED_INPUTS]
    rw [if_pos hover]
    cases hl : sys.unacknowledgedInputs with
    | nil => rw [hl] at hfull; simp at hfull
    | cons a t => simp
  · intro sys
    simp [PredictionSystem.shouldThrottle, PredictionSystem.getUnackedInputCount,
          MAX_UNACKED_INPUTS]
  · intro sys p hle
    simp only [PredictionSystem.shouldThrottle, MAX_UNACKED_INPUTS]
    simp only [PredictionSystem.getUnackedInputCount] at hle
    simp only [decide_eq_false_iff_not, not_lt]
    omega

/-- Witness for C4: a full buffer of 120 entries evicts its oldest entry on
the next `applyInput`, and a reconciliation that empties the buffer turns
the throttle off. -/
theorem C4_buffer_bound_and_throttle_witness :
    ({ PredictionSystem.init 0 0 with
        unacknowledgedInputs :=
          List.replicate 120 (⟨1, 0, 0, 0⟩ : InputCommand) } :
        PredictionSystem).unacknowledgedInputs.length = 120 ∧
    (({ PredictionSystem.init 0 0 with
        unacknowledgedInputs :=
          List.replicate 120 (⟨1, 0, 0, 0⟩ : InputCommand) } :
        PredictionSystem).applyInput ⟨2, 0, 0, 1⟩).unacknowledgedInputs =
      (List.replicate 120 (⟨1, 0, 0, 0⟩ : InputCommand)).tail ++
        [⟨2, 0, 0, 1⟩] ∧
    ((PredictionSystem.init 0 0).reconcileWithServer
        ⟨1, 0, 0, 0, 0⟩).getUnackedInputCount ≤ 60 ∧
    ((PredictionSystem.init 0 0).reconcileWithServer
        ⟨1, 0, 0, 0, 0⟩).shouldThrottle = false := by
  have hlen : ({ PredictionSystem.init 0 0 with
      unacknowledgedInputs :=
        List.replicate 120 (⟨1, 0, 0, 0⟩ : InputCommand) } :
      PredictionSystem).unacknowledgedInputs.length = 120 := by
    simp
  have hcount : ((PredictionSystem.init 0 0).reconcileWithServer
      ⟨1, 0, 0, 0, 0⟩).getUnackedInputCount ≤ 60 := by
    simp [PredictionSystem.init, PredictionSystem.reconcileWithServer,
          PredictionSystem.getUnackedInputCount, replayInputs]
  exact ⟨hlen, C4_buffer_bound_and_throttle.2.1 _ ⟨2, 0, 0, 1⟩ hlen, hcount,
    C4_buffer_bound_and_throttle.2.2.2 _ ⟨1, 0, 0, 0, 0⟩ hcount⟩

/-- C5: deserializing the 20-byte buffer produced by serializing a wire
packet whose fields are in 32-bit range yields the packet back
field-for-field — the sequence exactly, and each float's 32-bit pattern
bit-exactly (hence equal within any tolerance). -/
theorem C5_serialize_deserialize_roundtrip (p : WirePacket)
    (hs : p.seq < 4294967296) (hx : p.x < 4294967296) (hy : p.y < 4294967296)
    (hvx : p.vx < 4294967296) (hvy : p.vy < 4294967296) :
    WirePacket.deserialize p.serialize = p ∧ p.serialize.length = 20 := by
  obtain ⟨s, x, y, vx, vy⟩ := p
  replace hs : s < 4294967296 := hs
  replace hx : x < 4294967296 := hx
  replace hy : y < 4294967296 := hy
  replace hvx : vx < 4294967296 := hvx
  replace hvy : vy < 4294967296 := hvy
  refine ⟨?_, rfl⟩
  have h1 : WirePacket.deserialize (WirePacket.serialize ⟨s, x, y, vx, vy⟩) =
      ⟨16777216 * (s / 16777216 % 256) +
         65536 * (s / 65536 % 256) + 256 * (s / 256 % 256) + s % 256,
       x % 256 + 256 * (x / 256 % 256) + 65536 * (x / 65536 % 256) +
         16777216 * (x / 16777216 % 256),
       y % 256 + 256 * (y / 256 % 256) + 65536 * (y / 65536 % 256) +
         16777216 * (y / 16777216 % 256),
       vx % 256 + 256 * (vx / 256 % 256) + 65536 * (vx / 65536 % 256) +
         16777216 * (vx / 16777216 % 256),
       vy % 256 + 256 * (vy / 256 % 256) + 65536 * (vy / 65536 % 256) +
         16777216 * (vy / 16777216 % 256)⟩ := rfl
  rw [h1, WirePacket.mk.injEq]
  refine ⟨?_, ?_, ?_, ?_, ?_⟩ <;> omega

/-- Witness for C5: the packet with sequence 0x01020304 and float patterns
1, 2, 3, 4 round-trips. -/
theorem C5_serialize_deserialize_roundtrip_witness :
    (16909060 < 4294967296 ∧ 1 < 4294967296 ∧ 2 < 4294967296 ∧
      3 < 4294967296 ∧ 4 < 4294967296) ∧
    WirePacket.deserialize (WirePacket.serialize ⟨16909060, 1, 2, 3, 4⟩) =
      ⟨16909060, 1, 2, 3, 4⟩ :=
  ⟨by omega,
   (C5_serialize_deserialize_roundtrip ⟨16909060, 1, 2, 3, 4⟩
      (by decide) (by decide) (by decide) (by decide) (by decide)).1⟩

/-- C6: `isValid` returns false if and only if the sequence is zero, some
float field is NaN or infinite, a position magnitude exceeds 10000, or a
velocity magnitude exceeds 1000 — a single offending field fails the whole
packet, and every finite, in-bounds, non-zero-sequence packet passes. -/
theorem C6_isValid_fails_closed (p : FPacket) :
    p.isValid = false ↔
      (p.seq = 0 ∨
       p.x.isFinite = false ∨ p.y.isFinite = false ∨
       p.vx.isFinite = false ∨ p.vy.isFinite = false ∨
       (∃ q, p.x = F.val q ∧ 10000 < |q|) ∨
       (∃ q, p.y = F.val q ∧ 10000 < |q|) ∨
       (∃ q, p.vx = F.val q ∧ 1000 < |q|) ∨
       (∃ q, p.vy = F.val q ∧ 1000 < |q|)) := by
  obtain ⟨n, fx, fy, fvx, fvy⟩ := p
  cases fx <;> cases fy <;> cases fvx <;> cases fvy <;>
    simp [FPacket.isValid, F.isFinite, F.absGt, not_le] <;>
    try tauto
  rename_i a b c d
  constructor
  · intro himp
    by_cases h1 : |a| ≤ 10000
    · by_cases h2 : |b| ≤ 10000
      · by_cases h3 : |c| ≤ 1000
        · by_cases h4 : |d| ≤ 1000
          · exact Or.inl (himp h1 h2 h3 h4)
          · exact Or.inr (Or.inr (Or.inr (Or.inr (not_le.mp h4))))
        · exact Or.inr (Or.inr (Or.inr (Or.inl (not_le.mp h3))))
      · exact Or.inr (Or.inr (Or.inl (not_le.mp h2)))
    · exact Or.inr (Or.inl (not_le.mp h1))
  · rintro (hn | hb | hb | hb | hb) <;> intro h1 h2 h3 h4
    · exact hn
    · exact absurd hb (not_lt.mpr h1)
    · exact absurd hb (not_lt.mpr h2)
    · exact absurd hb (not_lt.mpr h3)
    · exact absurd hb (not_lt.mpr h4)

/-- C7: for a structurally valid input packet whose sequence is strictly
newer than the client's last processed one, the server clamps elapsed time
into [0, 0.1s] and intent into [-1, 1] per axis, sets velocity to clamped
intent × 120, integrates position by velocity × clamped dt, clamps position
into the playfield bounds [30, 310], and records the new sequence; a stale
packet (sequence ≤ last processed) leaves the client state unchanged, and
either way the response echoes the input's sequence with the current
authoritative position and velocity. -/
theorem C7_server_authoritative_step (client : ClientState) (pkt : Packet)
    (rawDt : ℚ) (hvalid : pkt.seq ≠ 0) :
    (client.lastSeq < pkt.seq →
        (processInput client pkt rawDt).1 =
          { x := clampQ (client.x +
                clampQ pkt.x (-1) 1 * MOVE_SPEED * clampQ rawDt 0 (1/10))
              BOUNDS_MIN BOUNDS_MAX,
            y := clampQ (client.y +
                clampQ pkt.y (-1) 1 * MOVE_SPEED * clampQ rawDt 0 (1/10))
              BOUNDS_MIN BOUNDS_MAX,
            vx := clampQ pkt.x (-1) 1 * MOVE_SPEED,
            vy := clampQ pkt.y (-1) 1 * MOVE_SPEED,
            lastSeq := pkt.seq } ∧
        0 ≤ clampQ rawDt 0 (1/10) ∧ clampQ rawDt 0 (1/10) ≤ 1/10 ∧
        -1 ≤ clampQ pkt.x (-1) 1 ∧ clampQ pkt.x (-1) 1 ≤ 1 ∧
        -1 ≤ clampQ pkt.y (-1) 1 ∧ clampQ pkt.y (-1) 1 ≤ 1 ∧
        BOUNDS_MIN ≤ (processInput client pkt rawDt).1.x ∧
        (processInput client pkt rawDt).1.x ≤ BOUNDS_MAX ∧
        BOUNDS_MIN ≤ (processInput client pkt rawDt).1.y ∧
        (processInput client pkt rawDt).1.y ≤ BOUNDS_MAX ∧
        (processInput client pkt rawDt).1.lastSeq = pkt.seq ∧
        (processInput client pkt rawDt).2 =
          ⟨pkt.seq, (processInput client pkt rawDt).1.x,
            (processInput client pkt rawDt).1.y,
            (processInput client pkt rawDt).1.vx,
            (processInput client pkt rawDt).1.vy⟩) ∧
    (pkt.seq ≤ client.lastSeq →
        (processInput client pkt rawDt).1 = client ∧
        (processInput client pkt rawDt).2 =
          ⟨pkt.seq, client.x, client.y, client.vx, client.vy⟩) := by
  have h30 : (BOUNDS_MIN : ℚ) ≤ BOUNDS_MAX := by norm_num [BOUNDS_MIN, BOUNDS_MAX]
  have h110 : (0 : ℚ) ≤ 1/10 := by norm_num
  have h11 : (-1 : ℚ) ≤ 1 := by norm_num
  constructor
  · intro hlt
    have hfst : (processInput client pkt rawDt).1 =
        { x := clampQ (client.x +
              clampQ pkt.x (-1) 1 * MOVE_SPEED * clampQ rawDt 0 (1/10))
            BOUNDS_MIN BOUNDS_MAX,
          y := clampQ (client.y +
              clampQ pkt.y (-1) 1 * MOVE_SPEED * clampQ rawDt 0 (1/10))
            BOUNDS_MIN BOUNDS_MAX,
          vx := clampQ pkt.x (-1) 1 * MOVE_SPEED,
          vy := clampQ pkt.y (-1) 1 * MOVE_SPEED,
          lastSeq := pkt.seq } := by
      simp only [processInput, if_pos hlt]
    refine ⟨hfst, clampQ_le_left _ _ _ h110, clampQ_le_right _ _ _ h110,
      clampQ_le_left _ _ _ h11, clampQ_le_right _ _ _ h11,
      clampQ_le_left _ _ _ h11, clampQ_le_right _ _ _ h11,
      ?_, ?_, ?_, ?_, ?_, rfl⟩
    · rw [hfst]; exact clampQ_le_left _ _ _ h30
    · rw [hfst]; exact clampQ_le_right _ _ _ h30
    · rw [hfst]; exact clampQ_le_left _ _ _ h30
    · rw [hfst]; exact clampQ_le_right _ _ _ h30
    · rw [hfst]
  · intro hstale
    have hfst : (processInput client pkt rawDt).1 = client := by
      simp only [processInput, if_neg (not_lt.mpr hstale)]
    exact ⟨hfst, by rw [show (processInput client pkt rawDt).2 =
      ⟨pkt.seq, (processInput client pkt rawDt).1.x,
        (processInput client pkt rawDt).1.y,
        (processInput client pkt rawDt).1.vx,
        (processInput client pkt rawDt).1.vy⟩ from rfl, hfst]⟩

/-- Witness for C7: a fresh input of sequence 1 against a new client at
(100, 100), and the same packet again as a stale duplicate. -/
theorem C7_server_authoritative_step_witness :
    ((1 : Nat) ≠ 0 ∧ (⟨100, 100, 0, 0, 0⟩ : ClientState).lastSeq < 1 ∧
      (processInput ⟨100, 100, 0, 0, 0⟩ ⟨1, 1, 0, 0, 0⟩ (1/60)).1.lastSeq = 1) ∧
    ((1 : Nat) ≤ (⟨100, 100, 0, 0, 1⟩ : ClientState).lastSeq ∧
      (processInput ⟨100, 100, 0, 0, 1⟩ ⟨1, 1, 0, 0, 0⟩ (1/60)).1 =
        ⟨100, 100, 0, 0, 1⟩) := by
  constructor
  · refine ⟨by decide, by decide, ?_⟩
    exact ((C7_server_authoritative_step ⟨100, 100, 0, 0, 0⟩ ⟨1, 1, 0, 0, 0⟩
      (1/60) (by decide)).1 (by decide)).2.2.2.2.2.2.2.2.2.2.2.1
  · refine ⟨by decide, ?_⟩
    exact ((C7_server_authoritative_step ⟨100, 100, 0, 0, 1⟩ ⟨1, 1, 0, 0, 0⟩
      (1/60) (by decide)).2 (by decide)).1

/-- C8: `predictPosition` returns exactly
`(pkt.x + pkt.vx·dt, pkt.y + pkt.vy·dt)` for every finite packet and every
`dt` (including `dt = 0`, which returns the packet's position, and negative
`dt`); NaN inputs in any position propagate to the corresponding output,
and an infinite position propagates to the output, rather than being
rejected. -/
theorem C8_predictPosition_linear_and_total :
    (∀ (s : Nat) (x y vx vy dtq : ℚ),
        predictPosition ⟨s, .val x, .val y, .val vx, .val vy⟩ (.val dtq) =
          (.val (x + vx * dtq), .val (y + vy * dtq))) ∧
    (∀ (s : Nat) (x y vx vy : ℚ),
        predictPosition ⟨s, .val x, .val y, .val vx, .val vy⟩ (.val 0) =
          (.val x, .val y)) ∧
    (∀ (p : FPacket) (dt : F), p.x = .nan → (predictPosition p dt).1 = .nan) ∧
    (∀ (p : FPacket) (dt : F), p.vx = .nan → (predictPosition p dt).1 = .nan) ∧
    (∀ (p : FPacket) (dt : F), p.y = .nan → (predictPosition p dt).2 = .nan) ∧
    (∀ (p : FPacket) (dt : F), p.vy = .nan → (predictPosition p dt).2 = .nan) ∧
    (∀ p : FPacket,
        (predictPosition p .nan).1 = .nan ∧ (predictPosition p .nan).2 = .nan) ∧
    (∀ (p : FPacket) (dt : F) (b : Bool) (q : ℚ),
        p.x = .inf b → p.vx.mul dt = .val q →
        (predictPosition p dt).1 = .inf b) := by
  have hnan_add : ∀ a : F, F.add .nan a = .nan := fun a => by cases a <;> rfl
  have hnan_mul : ∀ a : F, F.mul .nan a = .nan := fun a => by cases a <;> rfl
  refine ⟨fun s x y vx vy dtq => rfl,
    fun s x y vx vy => by simp [predictPosition, F.mul, F.add],
    fun p dt h => ?_, fun p dt h => ?_, fun p dt h => ?_, fun p dt h => ?_,
    fun p => ?_, fun p dt b q hx hm => ?_⟩
  · show p.x.add (p.vx.mul dt) = .nan
    rw [h, hnan_add]
  · show p.x.add (p.vx.mul dt) = .nan
    rw [h, hnan_mul, F.add_nan_right]
  · show p.y.add (p.vy.mul dt) = .nan
    rw [h, hnan_add]
  · show p.y.add (p.vy.mul dt) = .nan
    rw [h, hnan_mul, F.add_nan_right]
  · constructor
    · show p.x.add (p.vx.mul .nan) = .nan
      rw [F.mul_nan_right, F.add_nan_right]
    · show p.y.add (p.vy.mul .nan) = .nan
      rw [F.mul_nan_right, F.add_nan_right]
  · show p.x.add (p.vx.mul dt) = .inf b
    rw [hx, hm]
    rfl

/-- Witness for C8: a NaN x-coordinate propagates at a concrete packet. -/
theorem C8_predictPosition_linear_and_total_witness :
    ((⟨1, F.nan, F.val 0, F.val 0, F.val 0⟩ : FPacket).x = F.nan) ∧
    (predictPosition ⟨1, F.nan, F.val 0, F.val 0, F.val 0⟩ (F.val 1)).1 =
      F.nan :=
  ⟨rfl, C8_predictPosition_linear_and_total.2.2.1
    ⟨1, F.nan, F.val 0, F.val 0, F.val 0⟩ (F.val 1) rfl⟩

/-- C9: interpolation returns exactly the previous packet's coordinates at
`t = 0` and exactly the next packet's at `t = 1`; midpoint of (0,0)–(8,4)
at `t = 1/2` is (4,2). -/
theorem C9_interpolation_boundaries :
    (∀ prev next : Packet,
        interpolatePosition prev next 0 = (prev.x, prev.y)) ∧
    (∀ prev next : Packet,
        interpolatePosition prev next 1 = (next.x, next.y)) ∧
    interpolatePosition ⟨1, 0, 0, 0, 0⟩ ⟨2, 8, 4, 0, 0⟩ (1/2) = (4, 2) := by
  refine ⟨fun prev next => ?_, fun prev next => ?_, ?_⟩
  · simp [interpolatePosition]
  · simp [interpolatePosition]
  · simp only [interpolatePosition]
    norm_num

/-- C10: every input application — in `applyInput` and in each replay step
of reconciliation, both of which call `applyInputToState` — sets the
velocity to exactly `(input.vx × 120, input.vy × 120)` with no dependence on
the previous velocity; a zero-intent command yields velocity (0, 0) and
leaves the position unchanged. -/
theorem C10_velocity_from_input_alone :
    (∀ (x y vx vy : ℚ) (i : InputCommand),
        applyInputToState x y vx vy i =
          (x + i.vx * MOVE_SPEED * i.dt, y + i.vy * MOVE_SPEED * i.dt,
           i.vx * MOVE_SPEED, i.vy * MOVE_SPEED)) ∧
    (∀ (x y vx vy vx' vy' : ℚ) (i : InputCommand),
        applyInputToState x y vx vy i = applyInputToState x y vx' vy' i) ∧
    (∀ (sys : PredictionSystem) (i : InputCommand),
        (sys.applyInput i).getPredictedVelocity =
          (i.vx * MOVE_SPEED, i.vy * MOVE_SPEED)) ∧
    (∀ (sys : PredictionSystem) (i : InputCommand), i.vx = 0 → i.vy = 0 →
        (sys.applyInput i).getPredictedVelocity = (0, 0) ∧
        (sys.applyInput i).getPredictedPosition = sys.getPredictedPosition) := by
  refine ⟨fun x y vx vy i => rfl, fun x y vx vy vx' vy' i => rfl,
    fun sys i => rfl, fun sys i hvx hvy => ⟨?_, ?_⟩⟩
  · show (i.vx * MOVE_SPEED, i.vy * MOVE_SPEED) = ((0 : ℚ), (0 : ℚ))
    rw [hvx, hvy]
    norm_num
  · show (sys.predictedX + i.vx * MOVE_SPEED * i.dt,
        sys.predictedY + i.vy * MOVE_SPEED * i.dt) =
      (sys.predictedX, sys.predictedY)
    rw [hvx, hvy]
    norm_num

/-- Witness for C10: the zero-intent command leaves a concrete engine's
position unchanged. -/
theorem C10_velocity_from_input_alone_witness :
    ((⟨1, 0, 0, 1⟩ : InputCommand).vx = 0 ∧
     (⟨1, 0, 0, 1⟩ : InputCommand).vy = 0) ∧
    ((PredictionSystem.init 7 9).applyInput
        ⟨1, 0, 0, 1⟩).getPredictedPosition =
      (PredictionSystem.init 7 9).getPredictedPosition :=
  ⟨⟨rfl, rfl⟩,
   (C10_velocity_from_input_alone.2.2.2 (PredictionSystem.init 7 9)
      ⟨1, 0, 0, 1⟩ rfl rfl).2⟩

end Netcode
